import Mathlib

/-!
# Verification of the `@viteplus/versions` configuration-transformation layer

Shallow embedding, in Lean 4, of the path/key normalization, merge and
propagation logic of the `@viteplus/versions` VitePress plugin, together with
theorems settling the frozen claims about its specification.

Conventions used throughout:
* JavaScript strings are Lean `String`s; `undefined`/optional fields are
  `Option`s; JS truthiness of a string is "present and nonempty".
* JS objects whose keys matter are association lists `List (String × α)`
  (assignment to an existing key updates in place, otherwise appends,
  mirroring JS property-insertion order).
* The destructive `segments.shift()` style of the source parsers is embedded
  as pure functions returning the parsed prefix together with the remaining
  segment list.
* `path.posix.join` / `normalize` from Node.js are embedded faithfully
  (collapsing of repeated separators, `.`/`..` resolution, trailing-slash
  preservation) since the link/base computations of the source depend on them.
-/

namespace Viteplus

/-! ## JavaScript string primitives

Embeddings of the JS string operations the source relies on, written over the
underlying character lists so that concrete instances reduce inside the
kernel.  `jsSplit` models `String.prototype.split` with a one-character
separator (keeping empty fragments, as JS does). -/

/-- Split a character list at every occurrence of `sep`, keeping empty groups. -/
def splitCharList (sep : Char) : List Char → List (List Char)
  | [] => [[]]
  | c :: cs =>
    if c = sep then [] :: splitCharList sep cs
    else
      match splitCharList sep cs with
      | [] => [[c]]
      | g :: gs => (c :: g) :: gs

/-- JS `s.split(sep)` for a single-character separator. -/
def jsSplit (sep : Char) (s : String) : List String :=
  (splitCharList sep s.data).map String.mk

/-- JS `s.startsWith(pre)`. -/
def strStartsWith (s pre : String) : Bool := pre.data.isPrefixOf s.data

/-- JS `s.endsWith(suf)`. -/
def strEndsWith (s suf : String) : Bool := suf.data.isSuffixOf s.data

/-- Join strings with a separator (`Array.prototype.join`). -/
def joinStrings (sep : String) : List String → String
  | [] => ""
  | [x] => x
  | x :: xs => x ++ sep ++ joinStrings sep xs

/-! ## Node.js `path.posix` model -/

/-- One step of Node's `normalizeString`: process a single path segment given
the (reversed) stack of segments kept so far.  Empty and `"."` segments are
dropped; `".."` pops a previous segment, or is kept when the path is relative
(`allowAboveRoot`) and there is nothing to pop. -/
def normSegStep (allowAboveRoot : Bool) (acc : List String) (s : String) : List String :=
  if s = "" ∨ s = "." then acc
  else if s = ".." then
    match acc with
    | [] => if allowAboveRoot then [".."] else []
    | t :: rest => if t = ".." then (if allowAboveRoot then ".." :: acc else acc) else rest
  else s :: acc

/-- Node's `normalizeString`: resolve `.` and `..` segments of a split path. -/
def normalizeSegments (allowAboveRoot : Bool) (segs : List String) : List String :=
  (segs.foldl (normSegStep allowAboveRoot) []).reverse

/-- Node's `path.posix.normalize`. -/
def posixNormalize (p : String) : String :=
  if p = "" then "."
  else
    let isAbs := strStartsWith p "/"
    let trail := strEndsWith p "/"
    let core := joinStrings "/" (normalizeSegments (!isAbs) (jsSplit '/' p))
    if core = "" then
      if isAbs then "/" else if trail then "./" else "."
    else
      (if isAbs then "/" else "") ++ core ++ (if trail then "/" else "")

/-- Node's `path.posix.join`: drop empty arguments, glue the rest with `/`,
normalize; the join of nothing is `"."`. -/
def posixJoin (parts : List String) : String :=
  let kept := parts.filter (· ≠ "")
  if kept.isEmpty then "." else posixNormalize (joinStrings "/" kept)

/-- `safeJoin` from `sidebar.component.ts` (lines 86-90): posix-join the
truthy arguments but return `""` instead of `"."`. -/
def safeJoin (parts : List String) : String :=
  let joined := posixJoin (parts.filter (· ≠ ""))
  if joined = "." then "" else joined

/-! ## Path-key parsers (`extractLocale`) -/

/-- `PathSegmentsInterface`: the `{ lang, version }` record produced by the
`extractLocale` parsers. -/
structure PathSegments where
  lang : String
  version : String
  deriving DecidableEq, Repr

/-- `extractLocale` from `sidebar.component.ts` (lines 235-244), embedded as a
pure function: the source mutates `segments` via `shift()`, so the remaining
segment list is returned alongside the parsed `{ lang, version }`.
If the first segment is a known version it is consumed and the locale stays
empty; otherwise a leading known locale and then a known version are consumed. -/
def sidebarExtractLocale (segments localesList versionsList : List String) :
    PathSegments × List String :=
  match segments with
  | [] => (⟨"", ""⟩, [])
  | s0 :: rest =>
    if versionsList.contains s0 then (⟨"", s0⟩, rest)
    else if localesList.contains s0 then
      match rest with
      | [] => (⟨s0, ""⟩, [])
      | s1 :: rest2 =>
        if versionsList.contains s1 then (⟨s0, s1⟩, rest2) else (⟨s0, ""⟩, rest)
    else (⟨"", ""⟩, segments)

/-- `extractLocale` from `rewrites.component.ts` (lines 286-291): first a known
version is consumed from the front, then a known locale is consumed from the
(new) front. -/
def rewritesExtractLocale (segments localesList versionsList : List String) :
    PathSegments × List String :=
  let step1 : String × List String :=
    match segments with
    | [] => ("", [])
    | s0 :: rest => if versionsList.contains s0 then (s0, rest) else ("", s0 :: rest)
  let version := step1.1
  let segs1 := step1.2
  match segs1 with
  | [] => (⟨"", version⟩, [])
  | s0 :: rest =>
    if localesList.contains s0 then (⟨s0, version⟩, rest) else (⟨"", version⟩, s0 :: rest)

/-! ## Sidebar items and propagation (`sidebar.component.ts`) -/

/-- JS truthiness of an optional string (absent and `""` are falsy). -/
def jsTruthy : Option String → Bool
  | none => false
  | some s => s ≠ ""

/-- `SidebarItemType`: a VitePress sidebar item with the plugin's extra
`skipVersioning` flag.  `items` is `some` exactly when the JS object carries
an `items` array (an empty array is still truthy in JS). -/
inductive SidebarItem where
  | mk (text : String) (link : Option String) (base : Option String)
      (skipVersioning : Bool) (items : Option (List SidebarItem)) : SidebarItem

def SidebarItem.text : SidebarItem → String
  | .mk t _ _ _ _ => t

def SidebarItem.link : SidebarItem → Option String
  | .mk _ l _ _ _ => l

def SidebarItem.base : SidebarItem → Option String
  | .mk _ _ b _ _ => b

def SidebarItem.skipVersioning : SidebarItem → Bool
  | .mk _ _ _ s _ => s

def SidebarItem.items : SidebarItem → Option (List SidebarItem)
  | .mk _ _ _ _ i => i

/-- Body of the `sidebar.map(...)` callback of `populateSidebar`
(`sidebar.component.ts` lines 154-162), with `normalizedVersion` already
computed by the caller. -/
def populateSidebarItem (normalizedVersion : String) (item : SidebarItem) : SidebarItem :=
  if item.skipVersioning || strStartsWith (item.link.getD "") "http" then item
  else if !(jsTruthy item.link || item.items.isSome) || normalizedVersion = "" then item
  else
    .mk item.text item.link
      (some (safeJoin ["/", normalizedVersion, item.base.getD "", "/"]))
      item.skipVersioning item.items

/-- `populateSidebar` (`sidebar.component.ts` lines 151-163): map every item,
prefixing its `base` with the normalized version (`'root'` means none). -/
def populateSidebar (sidebar : List SidebarItem) (version : String) : List SidebarItem :=
  let normalizedVersion := if version = "root" then "" else version
  sidebar.map (populateSidebarItem normalizedVersion)

/-! ## Navigation items and propagation (`nav.component.ts`) -/

/-- `NavItemType`: a VitePress navigation item.  `items` is `some` exactly
when the JS object has an `items` array; `component` likewise.  The
`versioningPlugin` prop injected by `populateNav` is kept as its own field;
`otherProps` stands for the remaining (pass-through) entries of `props`. -/
inductive NavItem where
  | mk (text : String) (link : Option String) (skipVersioning : Bool)
      (items : Option (List NavItem)) (component : Option String)
      (versioningPlugin : Option (List String × String))
      (otherProps : List (String × String)) : NavItem

def NavItem.text : NavItem → String
  | .mk t _ _ _ _ _ _ => t

def NavItem.link : NavItem → Option String
  | .mk _ l _ _ _ _ _ => l

def NavItem.skipVersioning : NavItem → Bool
  | .mk _ _ s _ _ _ _ => s

def NavItem.items : NavItem → Option (List NavItem)
  | .mk _ _ _ i _ _ _ => i

def NavItem.component : NavItem → Option String
  | .mk _ _ _ _ c _ _ => c

def NavItem.versioningPlugin : NavItem → Option (List String × String)
  | .mk _ _ _ _ _ v _ => v

def NavItem.otherProps : NavItem → List (String × String)
  | .mk _ _ _ _ _ _ p => p

/-- `isNavItemWithChildren` (`nav.component.ts` lines 124-126):
`'items' in item && Array.isArray(item.items)`. -/
def isNavItemWithChildren (item : NavItem) : Bool := item.items.isSome

/-- `isNavItemWithLink` (`nav.component.ts` lines 150-152):
`'link' in item && !!item.link`. -/
def isNavItemWithLink (item : NavItem) : Bool := jsTruthy item.link

mutual

/-- `replaceLinksRecursive` (`nav.component.ts` lines 186-202): recurse into
children unless `skipVersioning`; otherwise prefix a truthy link with
`join('/', version, link)` unless `skipVersioning`; otherwise return the item
untouched. -/
def replaceLinksRecursive (version : String) : NavItem → NavItem
  | .mk text link skip (some items) component vp props =>
    if !skip then
      .mk text link skip (some (replaceLinksList version items)) component vp props
    else
      -- `isNavItemWithLink && !skipVersioning` is false here, so the item is
      -- returned unchanged by the source as well.
      .mk text link skip (some items) component vp props
  | .mk text link skip none component vp props =>
    if jsTruthy link && !skip then
      .mk text (some (posixJoin ["/", version, link.getD ""])) skip none component vp props
    else
      .mk text link skip none component vp props

def replaceLinksList (version : String) : List NavItem → List NavItem
  | [] => []
  | x :: xs => replaceLinksRecursive version x :: replaceLinksList version xs

end

/-- Body of the `items.map(...)` callback of `populateNav`
(`nav.component.ts` lines 237-252): component items get the
`versioningPlugin` prop injected, all other items go through
`replaceLinksRecursive`. -/
def populateNavItem (versionsList : List String) (currentVersion : String)
    (version : String) (item : NavItem) : NavItem :=
  if jsTruthy item.component then
    .mk item.text item.link item.skipVersioning item.items item.component
      (some (versionsList, currentVersion)) item.otherProps
  else
    replaceLinksRecursive version item

/-- `populateNav` (`nav.component.ts` lines 233-253): `'root'` is normalized
to the empty version, then every item is mapped.  The `versionsList` and
`currentVersion` arguments stand for the injected `StateModel`'s
`versionsList` and `versionsConfig.current`. -/
def populateNav (versionsList : List String) (currentVersion : String)
    (items : List NavItem) (version : String) : List NavItem :=
  let version := if version = "root" then "" else version
  items.map (populateNavItem versionsList currentVersion version)

/-! ## Claims C1, C5, C6 -/

/-- C1 counterexample: with known versions `["v1"]` and known locales
`["fr"]`, the rewrites-component `extractLocale` applied to `["v1", "fr"]`
does *not* leave the locale empty nor remove only one segment — it also
consumes the following locale segment, returning `lang = "fr"` with no
segments left. -/
theorem claim1_counterexample :
    rewritesExtractLocale ["v1", "fr"] ["fr"] ["v1"] = (⟨"fr", "v1"⟩, []) ∧
    (PathSegments.mk "fr" "v1").lang ≠ "" ∧ ([] : List String) ≠ ["fr"] := by
  decide

/-- C1 (amended): when the first segment is a known version, the sidebar
`extractLocale` returns `lang = ""`, `version = ` that segment and removes
exactly it, even when the next segment is a known locale; the rewrites
`extractLocale` also extracts that version, but additionally consumes the
next segment as `lang` whenever it is a known locale (only when the next
segment is not a known locale do the two implementations agree). -/
theorem claim1_version_first (v : String) (rest localesList versionsList : List String)
    (hv : versionsList.contains v = true) :
    sidebarExtractLocale (v :: rest) localesList versionsList = (⟨"", v⟩, rest) ∧
    rewritesExtractLocale (v :: rest) localesList versionsList =
      (match rest with
       | [] => (⟨"", v⟩, [])
       | s1 :: rest2 =>
         if localesList.contains s1 then (⟨s1, v⟩, rest2) else (⟨"", v⟩, s1 :: rest2)) := by
  have hv' : v ∈ versionsList := by simpa using hv
  refine ⟨?_, ?_⟩
  · simp [sidebarExtractLocale, hv']
  · cases rest with
    | nil => simp [rewritesExtractLocale, hv']
    | cons s1 rest2 => simp [rewritesExtractLocale, hv']

/-- Witness for C1 (amended) at a concrete input. -/
theorem claim1_version_first_witness :
    sidebarExtractLocale ["v1", "fr"] ["fr"] ["v1"] = (⟨"", "v1"⟩, ["fr"]) ∧
    rewritesExtractLocale ["v1", "fr"] ["fr"] ["v1"] = (⟨"fr", "v1"⟩, []) := by
  have h := claim1_version_first "v1" ["fr"] ["fr"] ["v1"] (by decide)
  exact ⟨h.1, by simpa using h.2⟩

/-- C5 counterexample: the navigation propagation `replaceLinksRecursive` has
no exemption for external links — the external link of
`{label: "Ext", link: "https://example.com"}` is rewritten (to
`/v2/https:/example.com`, `join` even collapsing the `//`). -/
theorem claim5_counterexample :
    (replaceLinksRecursive "v2"
        (.mk "Ext" (some "https://example.com") false none none none [])).link
      = some "/v2/https:/example.com" ∧
    some "/v2/https:/example.com" ≠ some "https://example.com" := by
  constructor
  · simp [replaceLinksRecursive, jsTruthy]
    decide
  · decide

/-- C5 (amended): a sidebar item whose link starts with `http` passes through
`populateSidebar` unchanged for every version (link untouched, no `base`
added); navigation link items enjoy no such exemption — for every truthy,
non-`skipVersioning` link (external or not), `replaceLinksRecursive` rewrites
it to `join('/', version, link)`. -/
theorem claim5_external_links (v : String) (item : SidebarItem) (ni : NavItem) (lnk : String)
    (hhttp : strStartsWith (item.link.getD "") "http" = true)
    (hlnk : ni.link = some lnk) (hne : lnk ≠ "")
    (hskip : ni.skipVersioning = false) (hitems : ni.items = none) :
    populateSidebar [item] v = [item] ∧
    (replaceLinksRecursive v ni).link = some (posixJoin ["/", v, lnk]) := by
  constructor
  · simp [populateSidebar, populateSidebarItem, hhttp]
  · cases ni with
    | mk text link skip items component vp props =>
      cases hitems
      cases hlnk
      cases hskip
      simp [replaceLinksRecursive, jsTruthy, hne, NavItem.link]

/-- Witness for C5 (amended) at a concrete input. -/
theorem claim5_external_links_witness :
    populateSidebar [.mk "Ext" (some "https://example.com") none false none] "v2"
      = [.mk "Ext" (some "https://example.com") none false none] ∧
    (replaceLinksRecursive "v2"
        (.mk "N" (some "/guide/") false none none none [])).link
      = some (posixJoin ["/", "v2", "/guide/"]) :=
  claim5_external_links "v2" (.mk "Ext" (some "https://example.com") none false none)
    (.mk "N" (some "/guide/") false none none none []) "/guide/"
    (by decide) rfl (by decide) rfl rfl

/-- Helper: `replaceLinksRecursive` is the identity on an item marked
`skipVersioning`, for every version. -/
theorem replaceLinksRecursive_skip (v : String) (ni : NavItem)
    (hn : ni.skipVersioning = true) : replaceLinksRecursive v ni = ni := by
  cases ni with
  | mk text link skip items component vp props =>
    cases hn
    cases items with
    | none => simp [replaceLinksRecursive]
    | some l => simp [replaceLinksRecursive]

/-- C6 (confirmed): a subtree whose root has `skipVersioning: true` is left
with link and base untouched by propagation, for every version value: the nav
`replaceLinksRecursive` returns the root (and hence all descendants)
unchanged, `populateSidebar` returns the sidebar item unchanged, and
`populateNav` preserves the root's link and children. -/
theorem claim6_skip_versioning (v cur : String) (vl : List String)
    (ni : NavItem) (si : SidebarItem)
    (hn : ni.skipVersioning = true) (hs : si.skipVersioning = true) :
    replaceLinksRecursive v ni = ni ∧
    populateSidebar [si] v = [si] ∧
    ∃ out, populateNav vl cur [ni] v = [out] ∧
      out.link = ni.link ∧ out.items = ni.items := by
  refine ⟨replaceLinksRecursive_skip v ni hn, ?_, ?_⟩
  · simp [populateSidebar, populateSidebarItem, hs]
  · by_cases hc : jsTruthy ni.component = true
    · cases ni with
      | mk text link skip items component vp props =>
        refine ⟨.mk text link skip items component (some (vl, cur)) props, ?_, rfl, rfl⟩
        simp only [NavItem.component] at hc
        simp [populateNav, populateNavItem, hc, NavItem.text, NavItem.link,
          NavItem.skipVersioning, NavItem.items, NavItem.component, NavItem.otherProps]
    · refine ⟨ni, ?_, rfl, rfl⟩
      have := replaceLinksRecursive_skip (if v = "root" then "" else v) ni hn
      simp [populateNav, populateNavItem, hc, this]

/-- Witness for C6 at a concrete input. -/
theorem claim6_skip_versioning_witness :
    replaceLinksRecursive "v1"
        (.mk "G" (some "/guide/") true (some [.mk "C" (some "/c/") false none none none []])
          none none [])
      = .mk "G" (some "/guide/") true (some [.mk "C" (some "/c/") false none none none []])
          none none [] ∧
    populateSidebar [.mk "S" (some "/s/") none true none] "v1"
      = [.mk "S" (some "/s/") none true none] ∧
    ∃ out, populateNav ["v1"] "v1"
        [.mk "G" (some "/guide/") true (some [.mk "C" (some "/c/") false none none none []])
          none none []] "v1" = [out] ∧
      out.link = (NavItem.mk "G" (some "/guide/") true
          (some [.mk "C" (some "/c/") false none none none []]) none none []).link ∧
      out.items = (NavItem.mk "G" (some "/guide/") true
          (some [.mk "C" (some "/c/") false none none none []]) none none []).items :=
  claim6_skip_versioning "v1" "v1" ["v1"]
    (.mk "G" (some "/guide/") true (some [.mk "C" (some "/c/") false none none none []])
      none none [])
    (.mk "S" (some "/s/") none true none) rfl rfl

/-! ## Claim C2: round-trip of path-key parsing -/

/-- Splitting a separator-free character list yields the single group. -/
theorem splitCharList_no_sep (sep : Char) (xs : List Char) (h : sep ∉ xs) :
    splitCharList sep xs = [xs] := by
  induction xs with
  | nil => rfl
  | cons c cs ih =>
    have hc : c ≠ sep := fun hcs => h (hcs ▸ List.mem_cons_self c cs)
    have hcs : sep ∉ cs := fun hm => h (List.mem_cons_of_mem c hm)
    simp [splitCharList, hc, ih hcs]

/-- Splitting at the first separator peels off the leading group. -/
theorem splitCharList_append (sep : Char) (xs ys : List Char) (h : sep ∉ xs) :
    splitCharList sep (xs ++ sep :: ys) = xs :: splitCharList sep ys := by
  induction xs with
  | nil => simp [splitCharList]
  | cons c cs ih =>
    have hc : c ≠ sep := fun hcs => h (hcs ▸ List.mem_cons_self c cs)
    have hcs : sep ∉ cs := fun hm => h (List.mem_cons_of_mem c hm)
    simp [splitCharList, hc, ih hcs]

/-- JS-splitting the composite key `l/v/a/b` on `/` recovers the four
components, provided none of them contains a slash. -/
theorem jsSplit_composite (l v a b : String)
    (hls : '/' ∉ l.data) (hvs : '/' ∉ v.data) (has : '/' ∉ a.data)
    (hbs : '/' ∉ b.data) :
    jsSplit '/' (l ++ "/" ++ v ++ "/" ++ a ++ "/" ++ b) = [l, v, a, b] := by
  have hdata : (l ++ "/" ++ v ++ "/" ++ a ++ "/" ++ b).data
      = l.data ++ '/' :: (v.data ++ '/' :: (a.data ++ '/' :: b.data)) := by
    simp [String.data_append]
  rw [jsSplit, hdata, splitCharList_append _ _ _ hls, splitCharList_append _ _ _ hvs,
    splitCharList_append _ _ _ has, splitCharList_no_sep _ _ hbs]
  rfl

/-- C2 counterexample: with known locales `["x"]` and known versions
`["x", "v"]` (the locale `"x"` is simultaneously a version label), parsing
the composite key `x/v/a/b` back does **not** recover
`{lang: "x", version: "v"}` with remainder `["a", "b"]` — the leading `"x"`
is swallowed as a version instead. -/
theorem claim2_counterexample :
    "x" ∈ (["x"] : List String) ∧ "v" ∈ (["x", "v"] : List String) ∧
    sidebarExtractLocale
        ((jsSplit '/' ("x" ++ "/" ++ "v" ++ "/" ++ "a" ++ "/" ++ "b")).filter (· ≠ ""))
        ["x"] ["x", "v"]
      ≠ ((⟨"x", "v"⟩ : PathSegments), ["a", "b"]) := by
  refine ⟨by decide, by decide, ?_⟩
  rw [show ("x" ++ "/" ++ "v" ++ "/" ++ "a" ++ "/" ++ "b") = "x/v/a/b" from rfl]
  decide

/-- C2 (amended): for every locale drawn from the known locale set that is
**not also a known version label**, every version drawn from the known
version set, and arbitrary nonempty slash-free subpath segments, splitting
`locale/version/subpath1/subpath2` on `/` (dropping empty fragments, as the
sidebar component does) and applying the sidebar `extractLocale` yields
exactly `{lang: locale, version: version}` with remainder
`[subpath1, subpath2]`. -/
theorem claim2_roundtrip (l v a b : String) (locales versions : List String)
    (hl : l ∈ locales) (hv : v ∈ versions) (hlv : l ∉ versions)
    (hle : l ≠ "") (hve : v ≠ "") (hae : a ≠ "") (hbe : b ≠ "")
    (hls : '/' ∉ l.data) (hvs : '/' ∉ v.data) (has : '/' ∉ a.data)
    (hbs : '/' ∉ b.data) :
    sidebarExtractLocale
        ((jsSplit '/' (l ++ "/" ++ v ++ "/" ++ a ++ "/" ++ b)).filter (· ≠ ""))
        locales versions
      = ((⟨l, v⟩ : PathSegments), [a, b]) := by
  rw [jsSplit_composite l v a b hls hvs has hbs]
  have hfilter : ([l, v, a, b].filter (· ≠ "")) = [l, v, a, b] := by
    simp [hle, hve, hae, hbe]
  rw [hfilter]
  simp [sidebarExtractLocale, hl, hv, hlv]

/-- Witness for C2 (amended) at a concrete input. -/
theorem claim2_roundtrip_witness :
    sidebarExtractLocale
        ((jsSplit '/' ("fr" ++ "/" ++ "v2.0" ++ "/" ++ "guide" ++ "/" ++ "intro")).filter (· ≠ ""))
        ["root", "fr"] ["v1.0", "v2.0"]
      = ((⟨"fr", "v2.0"⟩ : PathSegments), ["guide", "intro"]) :=
  claim2_roundtrip "fr" "v2.0" "guide" "intro" ["root", "fr"] ["v1.0", "v2.0"]
    (by decide) (by decide) (by decide) (by decide) (by decide) (by decide) (by decide)
    (by decide) (by decide) (by decide) (by decide)

/-! ## JSON-like values and `deepMerge` (`object.component.ts`) -/

/-- A JavaScript value as far as `deepMerge` can observe it: `null`, scalars,
arrays and plain objects (association lists of own enumerable properties, in
insertion order). -/
inductive JsonValue where
  | null : JsonValue
  | bool (b : Bool) : JsonValue
  | num (n : Int) : JsonValue
  | str (s : String) : JsonValue
  | arr (elems : List JsonValue) : JsonValue
  | obj (fields : List (String × JsonValue)) : JsonValue

/-- `val && typeof val === 'object'`: a truthy object, i.e. a non-null object
or array (`null` has `typeof 'object'` but is falsy). -/
def jsObjLike : JsonValue → Bool
  | .arr _ => true
  | .obj _ => true
  | _ => false

/-- `Array.isArray`. -/
def jsIsArr : JsonValue → Bool
  | .arr _ => true
  | _ => false

/-- The own enumerable properties of an array, as seen by a spread
`{...array}`: index keys `"0"`, `"1"`, … in order. -/
def arrFieldsAux (i : Nat) : List JsonValue → List (String × JsonValue)
  | [] => []
  | x :: xs => (toString i, x) :: arrFieldsAux (i + 1) xs

/-- The own enumerable properties of a value: an object's fields, an array's
indexed elements, and nothing for scalars (`{...scalar}` is empty). -/
def jsFields : JsonValue → List (String × JsonValue)
  | .obj fs => fs
  | .arr xs => arrFieldsAux 0 xs
  | _ => []

/-- `obj[key]` on an association-list object. -/
def getEntry (m : List (String × JsonValue)) (k : String) : Option JsonValue :=
  (m.find? (fun p => p.1 = k)).map (·.2)

/-- `obj[key] = v` on an association-list object: update in place when the
key exists, append otherwise (JS property-insertion order). -/
def setEntry (m : List (String × JsonValue)) (k : String) (v : JsonValue) :
    List (String × JsonValue) :=
  if m.any (fun p => p.1 = k) then m.map (fun p => if p.1 = k then (k, v) else p)
  else m ++ [(k, v)]

mutual

/-- Size measure for `deepMerge` termination (ignores keys, so an array's
spread into index/value pairs does not grow it). -/
def jsize : JsonValue → Nat
  | .null => 1
  | .bool _ => 1
  | .num _ => 1
  | .str _ => 1
  | .arr xs => 1 + jsizeList xs
  | .obj fs => 1 + jsizeFields fs

def jsizeList : List JsonValue → Nat
  | [] => 0
  | x :: xs => 1 + jsize x + jsizeList xs

def jsizeFields : List (String × JsonValue) → Nat
  | [] => 0
  | p :: fs => 1 + jsize p.2 + jsizeFields fs

end

theorem jsizeFields_arrFieldsAux (i : Nat) (xs : List JsonValue) :
    jsizeFields (arrFieldsAux i xs) = jsizeList xs := by
  induction xs generalizing i with
  | nil => rfl
  | cons x xs ih => simp [arrFieldsAux, jsizeFields, jsizeList, ih]

theorem jsizeFields_jsFields_lt (v : JsonValue) : jsizeFields (jsFields v) < jsize v := by
  cases v with
  | arr xs => simp [jsFields, jsize, jsizeFields_arrFieldsAux]
  | obj fs => simp [jsFields, jsize]
  | null => simp [jsFields, jsize, jsizeFields]
  | bool b => simp [jsFields, jsize, jsizeFields]
  | num n => simp [jsFields, jsize, jsizeFields]
  | str s => simp [jsFields, jsize, jsizeFields]

/-- The `for (const key in obj2)` loop of `deepMerge`
(`object.component.ts` lines 41-56), carried out over the remaining fields of
`obj2`: `result` starts as the shallow copy `{...obj1}` and each own property
`key` of `obj2` is assigned `deepMerge(val1, val2)` when both `val1 = obj1[key]`
and `val2 = obj2[key]` are truthy objects and `val2` is not an array — the
source checks `!Array.isArray(val2)` twice, so `val1` being an array does
*not* preclude the recursive merge — and `val2` outright otherwise. -/
def deepMergeGo (o1 result : List (String × JsonValue)) :
    List (String × JsonValue) → List (String × JsonValue)
  | [] => result
  | (k, val2) :: rest =>
    let newVal :=
      match getEntry o1 k with
      | some val1 =>
        if jsObjLike val1 && (jsObjLike val2 && !jsIsArr val2) then
          .obj (deepMergeGo (jsFields val1) (jsFields val1) (jsFields val2))
        else val2
      | none => val2
    deepMergeGo o1 (setEntry result k newVal) rest
termination_by l => jsizeFields l
decreasing_by
  · have h1 := jsizeFields_jsFields_lt val2
    simp only [jsizeFields]
    omega
  · simp only [jsizeFields]
    omega

/-- `deepMerge` (`object.component.ts` lines 38-59) on two plain objects. -/
def deepMerge (o1 o2 : List (String × JsonValue)) : List (String × JsonValue) :=
  deepMergeGo o1 o1 o2

/-- C4, failing input: for `a = {k: [1]}` and `b = {k: {x: 2}}`, the key `k`
has an array value in `a`, so the claim (and the function's own doc comment)
require the result at `k` to be exactly `b.k = {x: 2}`; instead, because the
source tests `!Array.isArray(val2)` twice and never tests `val1`, it
recursively merges the array as an object and returns `{k: {"0": 1, x: 2}}`. -/
theorem claim4_array_operand :
    deepMerge [("k", .arr [.num 1])] [("k", .obj [("x", .num 2)])]
      = [("k", .obj [("0", .num 1), ("x", .num 2)])] ∧
    JsonValue.obj [("0", JsonValue.num 1), ("x", JsonValue.num 2)]
      ≠ JsonValue.obj [("x", JsonValue.num 2)] := by
  have h0 : toString (0 : Nat) = "0" := rfl
  constructor
  · simp [deepMerge, deepMergeGo, getEntry, setEntry, jsFields, arrFieldsAux,
      jsObjLike, jsIsArr, h0]
  · simp

/-! ## Locale configuration, `getLanguageOnly`, `initializeLocalesMap` -/

/-- A user locale configuration record, as consulted by
`initializeLocalesMap` and `parseLocale` (`lang`, `label`, `link`; the nested
`themeConfig` is irrelevant to these functions and omitted). -/
structure LocaleCfg where
  lang : Option String
  label : Option String
  link : Option String
  deriving DecidableEq, Repr

/-- `getLanguageOnly` (`switcher-component.spec.ts` lines 137-139, the
locale-component source staged into that file; imported by `state.model.ts`
from the locale component): `locale.split(/[-_]/)[0]`, i.e. the leading
subtag of the language tag before the first hyphen or underscore
(`zh-Hans-CN` → `zh`).  Taking characters up to the first separator is
extensionally the first fragment of the regex split. -/
def getLanguageOnly (s : String) : String :=
  String.mk (s.data.takeWhile (fun c => !(c = '-' || c = '_')))

/-- The key under which `initializeLocalesMap` stores a user locale in
`localesMap`: `userLocales[key].link ?? getLanguageOnly(userLocales[key].lang ?? key)`. -/
def derivedPrefix (key : String) (cfg : LocaleCfg) : String :=
  cfg.link.getD (getLanguageOnly (cfg.lang.getD key))

/-- `obj[key] = v` on a string-valued association-list object. -/
def setStrEntry (m : List (String × String)) (k v : String) : List (String × String) :=
  if m.any (fun p => p.1 = k) then m.map (fun p => if p.1 = k then (k, v) else p)
  else m ++ [(k, v)]

/-- The `rootLocaleKey` of `initializeLocalesMap`: `'root' in userLocales ?
'root' : keys[0]`. -/
def rootLocaleKey (userLocales : List (String × LocaleCfg)) : String :=
  if userLocales.any (fun p => p.1 = "root") then "root"
  else ((userLocales.head?.map (·.1)).getD "")

/-- The `localesMap`-building part of `StateModel.initializeLocalesMap`
(`state.model.ts` lines 323-352).  The user locales are an association list
in configuration-key order; the `locales` (vitepressConfig) entries the loop
also writes never feed back into `localesMap` and are not modelled here.
`rootLocaleKey` is `'root'` when present, else the first key; each key `k`
stores `'root'` (for the root key) or `k` itself under `derivedPrefix`. -/
def initializeLocalesMap (userLocales : List (String × LocaleCfg)) :
    List (String × String) :=
  if userLocales.isEmpty then []
  else
    userLocales.foldl
      (fun m p =>
        setStrEntry m (derivedPrefix p.1 p.2)
          (if p.1 = rootLocaleKey userLocales then "root" else p.1))
      []

/-! ## `parseLocale` base-entry production (`locale.component.ts`) -/

/-- A locale entry of `vitepressConfig.locales` as far as `parseLocale`
writes it (`lang`, `label`, `link`). -/
structure LocaleEntry where
  lang : Option String
  label : Option String
  link : Option String
  deriving DecidableEq, Repr

/-- JS template interpolation of a possibly-undefined string. -/
def jsInterp : Option String → String
  | some s => s
  | none => "undefined"

/-- The base-entry production of `parseLocale` for one locale index
(`locale.component.ts` lines 38-44): `Object.assign(locales[index],
{...localeObject, themeConfig: undefined})` followed by the `link`
assignment, which uses the entry's `lang` **as configured** —
`` link = `/${locales[index].lang}/` `` — for non-root indexes and `"/"` for
the root index. -/
def parseLocaleBaseEntry (isRoot : Bool) (prev : LocaleEntry) (localeObject : LocaleCfg) :
    LocaleEntry :=
  let assigned : LocaleEntry :=
    { lang := localeObject.lang <|> prev.lang
      label := localeObject.label <|> prev.label
      link := localeObject.link <|> prev.link }
  { assigned with
    link := some (if isRoot then "/" else "/" ++ jsInterp assigned.lang ++ "/") }

/-! ## Claims C3 and C7 -/

/-- Assigning a fresh key appends the pair. -/
theorem setStrEntry_fresh (m : List (String × String)) (k v : String)
    (h : ∀ q ∈ m, q.1 ≠ k) : setStrEntry m k v = m ++ [(k, v)] := by
  have : m.any (fun p => p.1 = k) = false := by
    simp only [List.any_eq_false, decide_eq_true_eq]
    exact fun q hq => h q hq
  simp [setStrEntry, this]

/-- Folding fresh, pairwise-distinct assignments over an association-list
object appends them in order. -/
theorem foldl_setStrEntry_map {α : Type} (g : α → String × String) (l : List α)
    (init : List (String × String))
    (hnodup : (l.map (fun x => (g x).1)).Nodup)
    (hdisj : ∀ x ∈ l, ∀ q ∈ init, (g x).1 ≠ q.1) :
    l.foldl (fun m x => setStrEntry m (g x).1 (g x).2) init = init ++ l.map g := by
  induction l generalizing init with
  | nil => simp
  | cons x xs ih =>
    have hfresh : ∀ q ∈ init, q.1 ≠ (g x).1 :=
      fun q hq => fun he => hdisj x (List.mem_cons_self x xs) q hq he.symm
    have hstep : setStrEntry init (g x).1 (g x).2 = init ++ [g x] :=
      setStrEntry_fresh init (g x).1 (g x).2 hfresh
    have hnodup' : (xs.map (fun y => (g y).1)).Nodup := (List.nodup_cons.mp (by simpa using hnodup)).2
    have hhead : ∀ y ∈ xs, (g y).1 ≠ (g x).1 := by
      intro y hy he
      have hx : (g x).1 ∉ xs.map (fun z => (g z).1) := (List.nodup_cons.mp (by simpa using hnodup)).1
      exact hx (he ▸ List.mem_map_of_mem (fun z => (g z).1) hy)
    have hdisj' : ∀ y ∈ xs, ∀ q ∈ init ++ [g x], (g y).1 ≠ q.1 := by
      intro y hy q hq
      rcases List.mem_append.mp hq with hq | hq
      · exact hdisj y (List.mem_cons_of_mem x hy) q hq
      · rcases List.mem_singleton.mp hq with rfl
        exact hhead y hy
    calc (x :: xs).foldl (fun m z => setStrEntry m (g z).1 (g z).2) init
        = xs.foldl (fun m z => setStrEntry m (g z).1 (g z).2) (init ++ [g x]) := by
          simp [List.foldl_cons, hstep]
      _ = (init ++ [g x]) ++ xs.map g := ih (init ++ [g x]) hnodup' hdisj'
      _ = init ++ (x :: xs).map g := by simp

/-- Exactly one occurrence satisfies "equals `a`" in a duplicate-free list
containing `a`. -/
theorem countP_eq_one_of_nodup (l : List String) (a : String)
    (h : l.Nodup) (ha : a ∈ l) : l.countP (fun x => x = a) = 1 := by
  induction l with
  | nil => cases ha
  | cons b bs ih =>
    rcases List.nodup_cons.mp h with ⟨hb, hbs⟩
    by_cases hba : b = a
    · subst hba
      have hz : bs.countP (fun x => x = b) = 0 := by
        rw [List.countP_eq_zero]
        intro x hx
        simp only [decide_eq_true_eq]
        exact fun he => hb (he ▸ hx)
      simp [List.countP_cons, hz]
    · have hmem : a ∈ bs := by
        rcases List.mem_cons.mp ha with he | hm
        · exact absurd he.symm hba
        · exact hm
      simp [List.countP_cons, hba, ih hbs hmem]

/-- With duplicate-free derived prefixes, `initializeLocalesMap` is exactly
the in-order image of the user locales. -/
theorem initializeLocalesMap_eq_map (userLocales : List (String × LocaleCfg))
    (hpref : (userLocales.map (fun p => derivedPrefix p.1 p.2)).Nodup) :
    initializeLocalesMap userLocales
      = userLocales.map (fun p =>
          (derivedPrefix p.1 p.2,
            if p.1 = rootLocaleKey userLocales then "root" else p.1)) := by
  cases userLocales with
  | nil => rfl
  | cons x xs =>
    rw [initializeLocalesMap]
    simp only [List.isEmpty_cons, Bool.false_eq_true, if_false]
    exact foldl_setStrEntry_map
      (fun p => (derivedPrefix p.1 p.2,
        if p.1 = rootLocaleKey (x :: xs) then "root" else p.1))
      (x :: xs) [] (by simpa using hpref) (by simp)

/-- C3 counterexample: the non-empty configuration
`{root: {lang: "en-US"}, uk: {lang: "en-GB"}}` derives the same prefix `en`
for both keys, so the second assignment overwrites the first:
`localesMap = {en: "uk"}` has **no** entry with value `root` (and the `root`
key has no entry at all), refuting the claim for this configuration. -/
theorem claim3_counterexample :
    ([("root", (⟨some "en-US", some "English", none⟩ : LocaleCfg)),
        ("uk", ⟨some "en-GB", some "British", none⟩)]
      ≠ ([] : List (String × LocaleCfg))) ∧
    initializeLocalesMap
        [("root", ⟨some "en-US", some "English", none⟩),
          ("uk", ⟨some "en-GB", some "British", none⟩)]
      = [("en", "uk")] ∧
    ¬ ((initializeLocalesMap
          [("root", ⟨some "en-US", some "English", none⟩),
            ("uk", ⟨some "en-GB", some "British", none⟩)]).countP
        (fun q => q.2 = "root") = 1) := by
  refine ⟨by decide, by decide, by decide⟩

/-- C3 (amended): for every non-empty user locale configuration with
duplicate-free keys **whose derived `localesMap` prefixes
(`link ?? getLanguageOnly(lang ?? key)`) are also pairwise distinct**, after
initialization `localesMap` has exactly one entry per user locale key,
exactly one entry carries the value `root` (the root key's), and every
non-root user key is the value of exactly one entry. -/
theorem claim3_unique_root (userLocales : List (String × LocaleCfg))
    (hne : userLocales ≠ [])
    (hkeys : (userLocales.map (·.1)).Nodup)
    (hpref : (userLocales.map (fun p => derivedPrefix p.1 p.2)).Nodup) :
    (initializeLocalesMap userLocales).length = userLocales.length ∧
    (initializeLocalesMap userLocales).countP (fun q => q.2 = "root") = 1 ∧
    ∀ k ∈ userLocales.map (·.1), k ≠ rootLocaleKey userLocales →
      (initializeLocalesMap userLocales).countP (fun q => q.2 = k) = 1 := by
  have hroot_mem : rootLocaleKey userLocales ∈ userLocales.map (·.1) := by
    rw [rootLocaleKey]
    by_cases hr : userLocales.any (fun p => p.1 = "root") = true
    · rcases List.any_eq_true.mp hr with ⟨p, hp, hpe⟩
      simp only [decide_eq_true_eq] at hpe
      simp only [hr, if_true]
      exact List.mem_map.mpr ⟨p, hp, hpe⟩
    · cases userLocales with
      | nil => exact absurd rfl hne
      | cons x xs => simp [hr]
  have hroot_lit : ∀ p ∈ userLocales, p.1 = "root" → p.1 = rootLocaleKey userLocales := by
    intro p hp hpe
    have hany : userLocales.any (fun q => q.1 = "root") = true :=
      List.any_eq_true.mpr ⟨p, hp, by simpa using hpe⟩
    rw [rootLocaleKey, if_pos hany, hpe]
  rw [initializeLocalesMap_eq_map userLocales hpref]
  refine ⟨by simp, ?_, ?_⟩
  · rw [List.countP_map]
    have hcong : userLocales.countP
          ((fun q => decide (q.2 = "root")) ∘ (fun p =>
            (derivedPrefix p.1 p.2,
              if p.1 = rootLocaleKey userLocales then "root" else p.1)))
        = userLocales.countP (fun p => p.1 = rootLocaleKey userLocales) := by
      apply List.countP_congr
      intro p hp
      by_cases h : p.1 = rootLocaleKey userLocales
      · simp [h]
      · have : ¬ p.1 = "root" := fun hr => h (hroot_lit p hp hr)
        simp [h, this]
    rw [hcong]
    have : userLocales.countP (fun p => p.1 = rootLocaleKey userLocales)
        = (userLocales.map (·.1)).countP (fun k => k = rootLocaleKey userLocales) := by
      rw [List.countP_map]; rfl
    rw [this]
    exact countP_eq_one_of_nodup _ _ hkeys hroot_mem
  · intro k hk hkroot
    rw [List.countP_map]
    have hkne : k ≠ "root" := by
      intro hkr
      rcases List.mem_map.mp hk with ⟨p, hp, hpe⟩
      exact hkroot (hpe ▸ hroot_lit p hp (hpe.symm ▸ hkr))
    have hcong : userLocales.countP
          ((fun q => decide (q.2 = k)) ∘ (fun p =>
            (derivedPrefix p.1 p.2,
              if p.1 = rootLocaleKey userLocales then "root" else p.1)))
        = userLocales.countP (fun p => p.1 = k) := by
      apply List.countP_congr
      intro p hp
      by_cases h : p.1 = rootLocaleKey userLocales
      · simp only [Function.comp_apply, h, if_pos rfl]
        have h1 : ¬("root" = k) := fun he => hkne he.symm
        have h2 : ¬(p.1 = k) := fun he => hkroot (he ▸ h)
        have h3 : ¬(rootLocaleKey userLocales = k) := fun he => hkroot he.symm
        simp [h1, h2, h3]
      · simp [h]
    rw [hcong]
    have : userLocales.countP (fun p => p.1 = k)
        = (userLocales.map (·.1)).countP (fun x => x = k) := by
      rw [List.countP_map]; rfl
    rw [this]
    exact countP_eq_one_of_nodup _ _ hkeys hk

/-- Witness for C3 (amended) at a concrete configuration. -/
theorem claim3_unique_root_witness :
    (initializeLocalesMap
        [("root", ⟨some "en-US", none, none⟩), ("de", ⟨some "de-DE", none, none⟩)]).length
      = 2 ∧
    (initializeLocalesMap
        [("root", ⟨some "en-US", none, none⟩),
          ("de", ⟨some "de-DE", none, none⟩)]).countP (fun q => q.2 = "root") = 1 ∧
    ∀ k ∈ [("root", (⟨some "en-US", none, none⟩ : LocaleCfg)),
        ("de", ⟨some "de-DE", none, none⟩)].map (·.1),
      k ≠ rootLocaleKey
          [("root", ⟨some "en-US", none, none⟩), ("de", ⟨some "de-DE", none, none⟩)] →
      (initializeLocalesMap
          [("root", ⟨some "en-US", none, none⟩),
            ("de", ⟨some "de-DE", none, none⟩)]).countP (fun q => q.2 = k) = 1 :=
  claim3_unique_root
    [("root", ⟨some "en-US", none, none⟩), ("de", ⟨some "de-DE", none, none⟩)]
    (by decide) (by decide) (by decide)

/-- C7, failing input: a non-root locale configured with
`lang: "zh-Hans-CN"`.  The base entry's outbound link produced by
`parseLocale` is `/zh-Hans-CN/` — the **full** configured language tag —
whereas the claim (and the repository's own locale-component test, which
expects `/de/` from `de-DE`) requires the primary subtag only, `/zh/`. -/
theorem claim7_link_full_tag :
    (parseLocaleBaseEntry false ⟨none, none, none⟩
        ⟨some "zh-Hans-CN", some "Chinese", none⟩).link = some "/zh-Hans-CN/" ∧
    getLanguageOnly "zh-Hans-CN" = "zh" ∧
    ("/zh-Hans-CN/" : String) ≠ "/" ++ getLanguageOnly "zh-Hans-CN" ++ "/" := by
  refine ⟨by decide, by decide, by decide⟩

/-! ## Sidebar normalization (`normalizeSidebar`, claim C8) -/

/-- A value of a path-keyed sidebar map: either a single item or a list of
items (`Array.isArray(items) ? items : [items]`). -/
inductive SidebarValue where
  | single (item : SidebarItem) : SidebarValue
  | list (items : List SidebarItem) : SidebarValue

/-- A sidebar configuration: a flat array or a path-keyed object. -/
inductive SidebarInput where
  | arr (items : List SidebarItem) : SidebarInput
  | obj (entries : List (String × SidebarValue)) : SidebarInput

/-- The accumulated `results` of `normalizeSidebar`: locale/version parent
index → (path index → items). -/
abbrev SidebarResults := List (String × List (String × List SidebarItem))

/-- `results[parent] ??= {}; results[parent][index] ??= [];
results[parent][index].push(...items)`. -/
def pushItems (results : SidebarResults) (parent index : String)
    (items : List SidebarItem) : SidebarResults :=
  if results.any (fun p => p.1 = parent) then
    results.map (fun p =>
      if p.1 = parent then
        (p.1,
          if p.2.any (fun q => q.1 = index) then
            p.2.map (fun q => if q.1 = index then (q.1, q.2 ++ items) else q)
          else p.2 ++ [(index, items)])
      else p)
  else results ++ [(parent, [(index, items)])]

/-- One iteration of the `for (const [key, items] of Object.entries(sidebar))`
loop of `normalizeSidebar` (`sidebar.component.ts` lines 343-358). -/
def normalizeSidebarEntry (localesList versionsList : List String)
    (pfx normalizedPrefix : String) (results : SidebarResults)
    (kv : String × SidebarValue) : SidebarResults :=
  let segments := (jsSplit '/' kv.1).filter (· ≠ "")
  let parsed := sidebarExtractLocale segments localesList versionsList
  if parsed.1.lang ≠ "" && !(strStartsWith pfx parsed.1.lang) then results
  else
    let parent :=
      if parsed.1.version ≠ "" then safeJoin [normalizedPrefix, parsed.1.version]
      else normalizedPrefix
    let index0 := safeJoin ([parent] ++ parsed.2)
    let index := if index0 = "" then "/" else index0
    let parentIndex := if parent = "" then "root" else parent
    let itemsArray := match kv.2 with
      | .list l => l
      | .single i => [i]
    pushItems results parentIndex index itemsArray

/-- `normalizeSidebar` (`sidebar.component.ts` lines 327-359).  The
`localesList` and `versionsList` parameters stand for
`Object.values(state.localesMap)` and `state.versionsList`, the only parts of
the injected state the function reads. -/
def normalizeSidebar (localesList versionsList : List String)
    (results : SidebarResults) (sidebar : Option SidebarInput)
    (pfx : String) : SidebarResults :=
  match sidebar with
  | none => results
  | some sb =>
    let normalizedPrefix := if pfx = "root" then "" else pfx
    match sb with
    | .arr items =>
      let index := if normalizedPrefix ≠ "" then normalizedPrefix else "/"
      pushItems results pfx index items
    | .obj entries =>
      entries.foldl (normalizeSidebarEntry localesList versionsList pfx normalizedPrefix)
        results

/-- The skip condition of the loop: parsed locale nonempty and the processed
prefix does not start with it. -/
def sidebarEntrySkipped (localesList versionsList : List String) (pfx : String)
    (kv : String × SidebarValue) : Bool :=
  let parsed :=
    (sidebarExtractLocale ((jsSplit '/' kv.1).filter (· ≠ "")) localesList versionsList).1
  parsed.lang ≠ "" && !(strStartsWith pfx parsed.lang)

/-- C8 counterexample: with known locale indexes `["f", "fr"]`, processing
prefix `"fr"`, the path-keyed entry `"f/x"` parses to the non-empty locale
`"f"` which is **not** the processed prefix — yet, because the source only
checks `prefix.startsWith(lang)`, the entry is *not* skipped: its item is
accumulated into the results for prefix `"fr"` under index `"fr/x"`. -/
theorem claim8_counterexample :
    (sidebarExtractLocale ((jsSplit '/' "f/x").filter (· ≠ "")) ["f", "fr"] []).1.lang
      = "f" ∧
    ("f" : String) ≠ "fr" ∧
    (normalizeSidebar ["f", "fr"] [] []
        (some (.obj [("f/x", .list [.mk "I" (some "/x") none false none])])) "fr").map
        (fun p => (p.1, p.2.map (fun q => (q.1, q.2.length))))
      = [("fr", [("fr/x", 1)])] := by
  refine ⟨by decide, by decide, ?_⟩
  rfl

/-- C8 (amended): during sidebar normalization, a path-keyed entry is skipped
entirely — it contributes nothing to the accumulated results — exactly when
its key parses to a non-empty locale segment that the currently-processed
prefix does **not start with** (`prefix.startsWith(lang)`, not equality):
normalizing a path-keyed map is the same as normalizing the map with all such
entries removed, for every locale list, version list, accumulator and
prefix. -/
theorem claim8_skip_filter (localesList versionsList : List String)
    (results : SidebarResults) (entries : List (String × SidebarValue))
    (pfx : String) :
    normalizeSidebar localesList versionsList results (some (.obj entries)) pfx
      = normalizeSidebar localesList versionsList results
          (some (.obj (entries.filter
            (fun kv => !(sidebarEntrySkipped localesList versionsList pfx kv)))))
          pfx := by
  show entries.foldl _ results = _
  induction entries generalizing results with
  | nil => rfl
  | cons kv rest ih =>
    by_cases hskip : sidebarEntrySkipped localesList versionsList pfx kv = true
    · have hid : normalizeSidebarEntry localesList versionsList pfx
          (if pfx = "root" then "" else pfx) results kv = results := by
        rw [normalizeSidebarEntry]
        simp only [sidebarEntrySkipped] at hskip
        rw [if_pos hskip]
      calc (kv :: rest).foldl (normalizeSidebarEntry localesList versionsList pfx
              (if pfx = "root" then "" else pfx)) results
          = rest.foldl (normalizeSidebarEntry localesList versionsList pfx
              (if pfx = "root" then "" else pfx)) results := by
            rw [List.foldl_cons, hid]
        _ = _ := by rw [ih results]; simp [List.filter_cons, hskip]
    · have hkeep : (!(sidebarEntrySkipped localesList versionsList pfx kv)) = true := by
        simp [Bool.eq_false_iff.mpr hskip]
      calc (kv :: rest).foldl (normalizeSidebarEntry localesList versionsList pfx
              (if pfx = "root" then "" else pfx)) results
          = rest.foldl (normalizeSidebarEntry localesList versionsList pfx
              (if pfx = "root" then "" else pfx))
              (normalizeSidebarEntry localesList versionsList pfx
                (if pfx = "root" then "" else pfx) results kv) := by
            rw [List.foldl_cons]
        _ = _ := by
            rw [ih]
            simp only [List.filter_cons, hkeep, if_true]
            rfl

/-! ## StateModel construction and the filesystem (claim C9) -/

/-- The filesystem as the synchronous `fs` calls of the constructor see it:
the set of existing directories and the set of existing files. -/
structure FileSystem where
  dirs : List String
  files : List String

/-- `StateModel.makeArchiveDirectory` (`state.model.ts` lines 366-373):
nothing for a falsy path; otherwise, when the directory is missing, create it
(`mkdirSync`) and write an empty `.gitkeep` inside it (`writeFileSync`). -/
def makeArchiveDirectory (fs : FileSystem) (path : String) : FileSystem :=
  if path = "" then fs
  else if fs.dirs.contains path then fs
  else
    { dirs := fs.dirs ++ [path]
      files := fs.files ++ [posixJoin [path, ".gitkeep"]] }

/-- The filesystem-facing body of the `StateModel` constructor
(`state.model.ts` lines 184-194): compute `sourcesPath`/`archivePath` by
joining under the root, throw when the sources directory does not exist,
otherwise ensure the archive directory.  (`createVitepressConfig` performs no
filesystem access and cannot throw, so it is irrelevant here; `join` is
Node's platform join, identical to the posix join on the posix platform.) -/
def stateModelConstruct (fs : FileSystem) (root sources archive : String) :
    Except String FileSystem :=
  let sourcesPath := posixJoin [root, sources]
  let archivePath := posixJoin [root, archive]
  if !(fs.dirs.contains sourcesPath) then
    .error ("Source directory " ++ sourcesPath ++ " does not exist")
  else
    .ok (makeArchiveDirectory fs archivePath)

/-- `posixNormalize` never produces the empty string. -/
theorem posixNormalize_ne_empty (p : String) : posixNormalize p ≠ "" := by
  rw [posixNormalize]
  by_cases hp : p = ""
  · simp [hp]
  · rw [if_neg hp]
    set core := joinStrings "/" (normalizeSegments (!strStartsWith p "/") (jsSplit '/' p)) with hc
    by_cases hcore : core = ""
    · rw [if_pos hcore]
      by_cases habs : strStartsWith p "/"
      · simp [habs]
      · by_cases htr : strEndsWith p "/" <;> simp [habs, htr]
    · rw [if_neg hcore]
      intro he
      apply hcore
      have hdata := congrArg String.data he
      simp only [String.data_append] at hdata
      rcases List.append_eq_nil.mp hdata with ⟨h1, _⟩
      rcases List.append_eq_nil.mp h1 with ⟨_, hcd⟩
      exact String.ext (by simpa using hcd)

/-- `posixJoin` never produces the empty string. -/
theorem posixJoin_ne_empty (parts : List String) : posixJoin parts ≠ "" := by
  rw [posixJoin]
  cases h : (parts.filter (· ≠ "")).isEmpty with
  | true => simp only [h, if_true]; decide
  | false =>
    simp only [h, Bool.false_eq_true, if_false]
    exact posixNormalize_ne_empty _

/-- C9 (confirmed): the `StateModel` constructor errors exactly when the
sources directory is missing; when the sources directory exists and the
archive directory does not, it completes normally, having created the archive
directory together with its `.gitkeep` marker file. -/
theorem claim9_constructor (fs : FileSystem) (root sources archive : String)
    (hsrc : fs.dirs.contains (posixJoin [root, sources]) = true) :
    (∀ fs2 : FileSystem,
      ¬ stateModelConstruct fs2 root sources archive
          = .error ("Source directory " ++ posixJoin [root, sources] ++ " does not exist")
        ↔ fs2.dirs.contains (posixJoin [root, sources]) = true) ∧
    (fs.dirs.contains (posixJoin [root, archive]) = false →
      stateModelConstruct fs root sources archive
        = .ok { dirs := fs.dirs ++ [posixJoin [root, archive]]
                files := fs.files ++ [posixJoin [posixJoin [root, archive], ".gitkeep"]] }) := by
  constructor
  · intro fs2
    constructor
    · intro hne
      cases h : fs2.dirs.contains (posixJoin [root, sources]) with
      | true => rfl
      | false =>
        exfalso
        apply hne
        rw [stateModelConstruct]
        rw [h]
        rfl
    · intro h he
      rw [stateModelConstruct, h] at he
      exact Except.noConfusion he
  · intro harch
    rw [stateModelConstruct, hsrc]
    show Except.ok (makeArchiveDirectory fs (posixJoin [root, archive])) = _
    rw [makeArchiveDirectory, if_neg (posixJoin_ne_empty [root, archive]), if_neg]
    intro hc
    rw [hc] at harch
    exact Bool.noConfusion harch

/-- Witness for C9 at a concrete filesystem. -/
theorem claim9_constructor_witness :
    (∀ fs2 : FileSystem,
      ¬ stateModelConstruct fs2 "/proj" "src" "archive"
          = .error ("Source directory " ++ posixJoin ["/proj", "src"] ++ " does not exist")
        ↔ fs2.dirs.contains (posixJoin ["/proj", "src"]) = true) ∧
    ((FileSystem.mk ["/proj", "/proj/src"] []).dirs.contains
        (posixJoin ["/proj", "archive"]) = false →
      stateModelConstruct ⟨["/proj", "/proj/src"], []⟩ "/proj" "src" "archive"
        = .ok { dirs := ["/proj", "/proj/src"] ++ [posixJoin ["/proj", "archive"]]
                files := [] ++ [posixJoin [posixJoin ["/proj", "archive"], ".gitkeep"]] }) :=
  claim9_constructor ⟨["/proj", "/proj/src"], []⟩ "/proj" "src" "archive" (by decide)

/-! ## The rewrites function (claim C10) -/

/-- Drop a leading literal from a string.  Used to model
`s.replace(pre, '')` at call sites where `s` is known to start with `pre`
(JS `replace` removes the first occurrence, which there is the prefix). -/
def strDropPrefix (s pre : String) : String :=
  String.mk (s.data.drop pre.data.length)

/-- `obj[key]` on a string-valued association-list object. -/
def getStrEntry (m : List (String × String)) (k : String) : Option String :=
  (m.find? (fun p => p.1 = k)).map (·.2)

/-- The rewrites function installed by the later `parseRoutesComponent`
(`rewrites.component.ts` lines 317-353): `src/` paths resolve a leading
locale key and call the hook with an empty version; `archive/` paths are
parsed with the rewrites `extractLocale`; everything else is returned
unchanged. -/
def rewritesRoutesFn (localesMap : List (String × String)) (versionsList : List String)
    (hook : String → String → String → String) (id : String) : String :=
  let localesPrefix := localesMap.map (·.1)
  if strStartsWith id "src/" then
    let path := strDropPrefix id "src/"
    match localesPrefix.find? (fun p => strStartsWith path (p ++ "/")) with
    | some localeKey =>
      let locale := if getStrEntry localesMap localeKey = some "root" then "" else localeKey
      let filePath := strDropPrefix path (localeKey ++ "/")
      hook filePath "" locale
    | none => path
  else if strStartsWith id "archive/" then
    let path := strDropPrefix id "archive/"
    let segments := jsSplit '/' path
    let parsed := rewritesExtractLocale segments localesPrefix versionsList
    let source := joinStrings "/" parsed.2
    hook source parsed.1.version
      (if getStrEntry localesMap parsed.1.lang = some "root" then "" else parsed.1.lang)
  else id

/-- The rewrites function installed by the earlier `parseRoutesComponent`
(`rewrites.component.ts` lines 60-94).  Its `archive/` branch indexes
`parts[1]` unconditionally; when that slot is missing, the JS would pass
`undefined` into the hook's `join` and throw, modelled as `none`. -/
def rewritesRoutesFnV1 (localesMap : List (String × String))
    (hook : String → String → String → String) (id : String) : Option String :=
  let localesPrefix := localesMap.map (·.1)
  if strStartsWith id "src/" then
    let path := strDropPrefix id "src/"
    match localesPrefix.find? (fun p => strStartsWith path (p ++ "/")) with
    | some localeKey =>
      let locale := if getStrEntry localesMap localeKey = some "root" then "" else localeKey
      let filePath := strDropPrefix path (localeKey ++ "/")
      some (hook filePath "" locale)
    | none => some path
  else if strStartsWith id "archive/" then
    let path := strDropPrefix id "archive/"
    let parts := jsSplit '/' path
    let version := parts.headD ""
    match parts.drop 1 with
    | [] => none
    | localeKey :: restSegs =>
      let locale := if getStrEntry localesMap localeKey = some "root" then "" else localeKey
      let filePath := joinStrings "/" restSegs
      some (hook filePath version locale)
  else some id

/-- C10 (confirmed): both installed rewrites functions are the identity on
every id that starts with neither `src/` nor `archive/`, for every locales
map, version list and hook. -/
theorem claim10_identity_outside (localesMap : List (String × String))
    (versionsList : List String) (hook : String → String → String → String)
    (id : String)
    (h1 : strStartsWith id "src/" = false)
    (h2 : strStartsWith id "archive/" = false) :
    rewritesRoutesFn localesMap versionsList hook id = id ∧
    rewritesRoutesFnV1 localesMap hook id = some id := by
  constructor
  · rw [rewritesRoutesFn]
    simp [h1, h2]
  · rw [rewritesRoutesFnV1]
    simp [h1, h2]

/-- Witness for C10 at a concrete input. -/
theorem claim10_identity_outside_witness :
    rewritesRoutesFn [("en", "root")] ["v1"] (fun s _ _ => s) "docs/readme.md"
        = "docs/readme.md" ∧
    rewritesRoutesFnV1 [("en", "root")] (fun s _ _ => s) "docs/readme.md"
        = some "docs/readme.md" :=
  claim10_identity_outside [("en", "root")] ["v1"] (fun s _ _ => s) "docs/readme.md"
    (by decide) (by decide)

end Viteplus
